import Mathlib

/-!
Verification of the consolidation pipeline of `ts-runtime-validation`.

The development shallowly embeds the pipeline of the repository:
`SchemaProcessor` (src/services/SchemaProcessor.ts), the generator driver
(`SchemaGenerator.Generate`), `FileDiscovery` (discovery, content-hash cache)
and the error taxonomy.

Modelling conventions:
* JavaScript objects / `Map`s are insertion-ordered association lists
  (`List (String × α)`); property assignment updates an existing key in place
  (keeping its position) and appends a fresh key at the end, exactly as in JS.
* `SchemaNode` is an opaque structural tree compared by deep structural
  equality (derived `DecidableEq`), as the core never interprets fragments.
* A missing `$schema` and the empty string are identified: both are falsy in
  the `if (!schemaVersion && fileSchema["$schema"])` test of the source.
* `String.localeCompare`-based path sorting is modelled by the ordinal order
  on `String` (the default JS `Array.prototype.sort()` on strings); the
  default key sort `Object.keys(x).sort()` is ordinal by specification.
* Asynchrony is modelled by explicit effect results passed in as data:
  extraction is a function `String → Except String Schema`, crawling,
  stat/hash and cache writes are fields of a `DiscoveryEnv`.
-/

/-- Keys of a JS-object modelled as an association list (insertion order). -/
def listKeys {α : Type} (o : List (String × α)) : List String :=
  o.map Prod.fst

/-- JS property read: value of the first entry with the given key. -/
def listFind {α : Type} : List (String × α) → String → Option α
  | [], _ => none
  | p :: rest, k => if p.1 = k then some p.2 else listFind rest k

/-- Replace the value of every entry with the given key, keeping positions. -/
def listUpdate {α : Type} : List (String × α) → String → α → List (String × α)
  | [], _, _ => []
  | p :: rest, k, v => (if p.1 = k then (k, v) else p) :: listUpdate rest k v

/-- JS property assignment `o[k] = v`: update in place when the key exists,
append at the end otherwise. -/
def listSet {α : Type} (o : List (String × α)) (k : String) (v : α) :
    List (String × α) :=
  if k ∈ listKeys o then listUpdate o k v else o ++ [(k, v)]

/-- Type `SchemaNode`: an opaque tree of nested key/value nodes standing for one
extracted type shape; the pipeline only ever compares such trees by deep
structural equality, which the derived `DecidableEq` provides. -/
inductive SchemaNode where
  | leaf (tag : String)
  | branch (key : String) (left right : SchemaNode)
deriving DecidableEq, Repr

/-- One file's extracted schema, as returned by the type extractor:
a `$schema` dialect tag (`""` models `undefined`) and a `definitions`
object mapping symbol names to structural nodes. -/
structure Schema where
  schemaVersion : String
  definitions : List (String × SchemaNode)
deriving DecidableEq, Repr

/-- Error `DuplicateSymbolError` from src/errors: carries the message, the symbol,
one file path, and the two conflicting structural definitions. -/
structure DuplicateSymbolError where
  message : String
  symbol : String
  file : String
  existingDefinition : SchemaNode
  newDefinition : SchemaNode
deriving DecidableEq, Repr

/-- The message built at the `throw new DuplicateSymbolError(...)` site. -/
def dupMessage (key : String) : String :=
  "Duplicate symbol " ++ key ++ " found with different implementations"

/-- The ordinal (code-point lexicographic) order on strings: the comparison
used by the default `Array.prototype.sort()` on strings, and the model of
`localeCompare`-based path sorting. -/
def strLe (a b : String) : Prop :=
  a.data ≤ b.data

instance : DecidableRel strLe :=
  fun a b => inferInstanceAs (Decidable (a.data ≤ b.data))

instance : IsTotal String strLe :=
  ⟨fun a b => le_total a.data b.data⟩

instance : IsTrans String strLe :=
  ⟨fun _ _ _ h1 h2 => le_trans h1 h2⟩

instance : IsAntisymm String strLe := by
  constructor
  intro a b h1 h2
  cases a with
  | mk da =>
    cases b with
    | mk db =>
      exact congrArg String.mk (le_antisymm h1 h2)

instance {α : Type} : DecidableRel (fun a b : String × α => strLe a.1 b.1) :=
  fun a b => inferInstanceAs (Decidable (strLe a.1 b.1))

/-- Model of `Object.keys(defs).sort()`: ordinal sort of the keys. -/
def sortStrings (l : List String) : List String :=
  List.insertionSort strLe l

/-- Model of the entry sort `[...entries].sort(([a], [b]) => a.localeCompare(b))`,
with `localeCompare` modelled as the ordinal order. -/
def sortEntries (m : List (String × Schema)) : List (String × Schema) :=
  List.insertionSort (fun a b => strLe a.1 b.1) m

/-- Read `defs[key]` for a key obtained from `Object.keys(defs)`: always defined;
the `.leaf ""` default is never reached on such keys. -/
def defAt (defs : List (String × SchemaNode)) (k : String) : SchemaNode :=
  (listFind defs k).getD (SchemaNode.leaf "")

/-- The body of the merge loop for one file:
`Object.keys(defs).sort().forEach((key) => { definitions[key] = defs[key]; })`. -/
def mergeFileInto (acc : List (String × SchemaNode)) (s : Schema) :
    List (String × SchemaNode) :=
  (sortStrings (listKeys s.definitions)).foldl
    (fun acc2 k => listSet acc2 k (defAt s.definitions k)) acc

/-- The `$schema` update of the merge loop:
`if (!schemaVersion && fileSchema["$schema"]) schemaVersion = fileSchema["$schema"]`. -/
def stepVersion (sv : String) (s : Schema) : String :=
  if sv = "" ∧ s.schemaVersion ≠ "" then s.schemaVersion else sv

/-- Rebuild an object with its keys in sorted order
(`Object.keys(definitions).sort().forEach(key => sorted[key] = definitions[key])`). -/
def sortObj (o : List (String × SchemaNode)) : List (String × SchemaNode) :=
  (sortStrings (listKeys o)).map (fun k => (k, defAt o k))

/-- Method `SchemaProcessor.mergeSchemas`: fold the path-sorted entries through the
version/definitions loop, then emit the key-sorted definitions with the first
declared dialect, defaulting to draft-07. -/
def mergeSchemas (m : List (String × Schema)) : Schema :=
  let st := (sortEntries m).foldl
    (fun (st : String × List (String × SchemaNode)) e =>
      (stepVersion st.1 e.2, mergeFileInto st.2 e.2)) ("", [])
  { schemaVersion := if st.1 = "" then "http://json-schema.org/draft-07/schema#" else st.1,
    definitions := sortObj st.2 }

/-- The inner validation loop of `validateSchemaCompatibility` over one file's
sorted key list: on a key already recorded with a structurally different node,
throw a `DuplicateSymbolError` carrying the key, the current file path and both
nodes; otherwise record the node and continue. -/
def processKeys (filePath : String) (defs : List (String × SchemaNode))
    (acc : List (String × SchemaNode)) (keys : List String) :
    Except DuplicateSymbolError (List (String × SchemaNode)) :=
  keys.foldlM
    (fun acc2 k =>
      match listFind acc2 k with
      | some existing =>
        if existing = defAt defs k then Except.ok (listSet acc2 k (defAt defs k))
        else Except.error
          ⟨dupMessage k, k, filePath, existing, defAt defs k⟩
      | none => Except.ok (listSet acc2 k (defAt defs k)))
    acc

/-- Validation of one file: process its sorted definition keys. -/
def validateFile (filePath : String) (s : Schema)
    (acc : List (String × SchemaNode)) :
    Except DuplicateSymbolError (List (String × SchemaNode)) :=
  processKeys filePath s.definitions acc (sortStrings (listKeys s.definitions))

/-- The outer validation loop over a list of (path, schema) entries. -/
def validateEntries (acc : List (String × SchemaNode))
    (l : List (String × Schema)) :
    Except DuplicateSymbolError (List (String × SchemaNode)) :=
  l.foldlM (fun acc2 e => validateFile e.1 e.2 acc2) acc

/-- Method `SchemaProcessor.validateSchemaCompatibility`: walk the path-sorted
entries, fail-fast on the first structural conflict. -/
def validateSchemaCompatibility (m : List (String × Schema)) :
    Except DuplicateSymbolError Unit :=
  (validateEntries [] (sortEntries m)).map (fun _ => ())

/-- Record `FileInfo` from FileDiscovery: a path plus optional hash and mtime. -/
structure FileInfo where
  path : String
  hash : Option String
  lastModified : Option Nat
deriving DecidableEq, Repr

instance : DecidableRel (fun a b : FileInfo => strLe a.path b.path) :=
  fun a b => inferInstanceAs (Decidable (strLe a.path b.path))

/-- Record `ProcessingResult` from SchemaProcessor: per-file outcome of extraction.
`error` holds the message of the captured `Error`, `none` for `undefined`. -/
structure ProcessingResult where
  file : String
  schema : Option Schema
  error : Option String
deriving DecidableEq, Repr

instance : DecidableRel (fun a b : ProcessingResult => strLe a.file b.file) :=
  fun a b => inferInstanceAs (Decidable (strLe a.file b.file))

/-- Method `SchemaProcessor.processFile`: run the extractor on one file; on success
return a result with the schema, on failure throw a `SchemaGenerationError`
wrapping the message. The extractor is an explicit deterministic function. -/
def processFile (extract : String → Except String Schema) (f : FileInfo) :
    Except String ProcessingResult :=
  match extract f.path with
  | Except.ok s => Except.ok ⟨f.path, some s, none⟩
  | Except.error e =>
    Except.error ("Failed to process " ++ f.path ++ ": " ++ e)

/-- The settling of one dispatched extraction, shared by both modes: a
fulfilled promise yields its result, a rejected one yields a result holding
the original path and the reason (the index mapping of `processInParallel`
and the catch block of `processSequentially` are textually identical). -/
def settleResult (extract : String → Except String Schema)
    (f : FileInfo) : ProcessingResult :=
  match processFile extract f with
  | Except.ok r => r
  | Except.error e => ⟨f.path, none, some e⟩

/-- Method `SchemaProcessor.processInParallel`: dispatch every file, await the batch,
then map the settled results back by index. -/
def processInParallel (extract : String → Except String Schema)
    (files : List FileInfo) : List ProcessingResult :=
  files.map (settleResult extract)

/-- Method `SchemaProcessor.processSequentially`: one file at a time, catching each
failure and pushing an error result instead. -/
def processSequentially (extract : String → Except String Schema)
    (files : List FileInfo) : List ProcessingResult :=
  files.foldl (fun acc f => acc ++ [settleResult extract f]) []

/-- The body of the consolidation loop: push the error of a failed result,
record the schema of a successful one. -/
def consolidateStep (st : List (String × Schema) × List String)
    (r : ProcessingResult) : List (String × Schema) × List String :=
  match r.error with
  | some e => (st.1, st.2 ++ [e])
  | none =>
    match r.schema with
    | some s => (listSet st.1 r.file s, st.2)
    | none => st

/-- Method `SchemaProcessor.consolidateSchemas`: sort results by path, collect the
errors of failed files (reported via `console.warn` in verbose mode) and build
the path→schema map from the successful ones.  Returns the map together with
the collected error list (the local `errors` array of the source). -/
def consolidateSchemas (results : List ProcessingResult) :
    List (String × Schema) × List String :=
  (List.insertionSort (fun a b => strLe a.file b.file) results).foldl
    consolidateStep ([], [])

/-- Method `SchemaProcessor.processFiles`: sort the files by path, extract them in
parallel or sequentially according to the flag, and consolidate. -/
def processFiles (extract : String → Except String Schema) (parallel : Bool)
    (files : List FileInfo) : List (String × Schema) :=
  let sortedFiles := List.insertionSort (fun a b => strLe a.path b.path) files
  let results := if parallel then processInParallel extract sortedFiles
                 else processSequentially extract sortedFiles
  (consolidateSchemas results).1

/-- Outcome of one `SchemaGenerator.Generate` run, restricted to the
consolidation pipeline: early return when the schema map is empty
("No types found to generate schemas for"), failure thrown by compatibility
validation, or completion with the merged schema. -/
inductive RunOutcome where
  | noTypes
  | failed (e : DuplicateSymbolError)
  | done (merged : Schema)
deriving DecidableEq, Repr

/-- Returns `true` exactly on the outcome that raises an error out of the run. -/
def RunOutcome.isFailed : RunOutcome → Bool
  | RunOutcome.failed _ => true
  | _ => false

/-- The consolidation slice of `SchemaGenerator.Generate`: process the
discovered files, return early when the map is empty, validate, then merge. -/
def generate (extract : String → Except String Schema) (parallel : Bool)
    (files : List FileInfo) : RunOutcome :=
  let schemaMap := processFiles extract parallel files
  if schemaMap.length = 0 then RunOutcome.noTypes
  else
    match validateSchemaCompatibility schemaMap with
    | Except.error e => RunOutcome.failed e
    | Except.ok _ => RunOutcome.done (mergeSchemas schemaMap)

/-- Error `FileDiscoveryError` from src/errors (message only; the optional `path`
field is never supplied at the throw sites of FileDiscovery). -/
structure FileDiscoveryError where
  message : String
deriving DecidableEq, Repr

/-- The filesystem effects consumed by one `discoverFiles` call, passed as
data: the crawl outcome over the root (error = unreadable root), the glob
matcher, the per-file stat+hash outcome, and the cache-write outcome. -/
structure DiscoveryEnv where
  crawl : Except String (List String)
  matchesGlob : String → Bool
  statHash : String → Except String (String × Nat)
  writeCache : Except String Unit

/-- Returns `true` exactly on `Except.ok`. -/
def exceptOk {ε α : Type} : Except ε α → Bool
  | Except.ok _ => true
  | Except.error _ => false

/-- The `Promise.all` of per-file stat+hash effects inside
`enrichWithCacheInfo`: succeeds with one enriched `FileInfo` per path, fails
as a whole when any single stat/hash fails. -/
def statHashAll (env : DiscoveryEnv) : List String → Except String (List FileInfo)
  | [] => Except.ok []
  | p :: rest =>
    match env.statHash p with
    | Except.error e => Except.error e
    | Except.ok hm =>
      match statHashAll env rest with
      | Except.error e => Except.error e
      | Except.ok fs => Except.ok (FileInfo.mk p (some hm.1) (some hm.2) :: fs)

/-- Method `FileDiscovery.enrichWithCacheInfo`: stat and hash every file (a batch
that fails if any single stat/hash fails), then persist the cache
(`saveCache`, whose failure also propagates). -/
def enrichWithCacheInfo (env : DiscoveryEnv) (files : List String) :
    Except String (List FileInfo) :=
  (statHashAll env files).bind
    (fun enriched => env.writeCache.map (fun _ => enriched))

/-- Method `FileDiscovery.discoverFiles`: crawl, keep the glob matches, fail when
none match, sort, and either enrich with cache info (cache enabled) or wrap
the bare paths.  Every failure escaping the body is wrapped into a
`FileDiscoveryError`. -/
def discoverFiles (cacheEnabled : Bool) (env : DiscoveryEnv) :
    Except FileDiscoveryError (List FileInfo) :=
  match env.crawl with
  | Except.error e => Except.error ⟨"Failed to discover files: " ++ e⟩
  | Except.ok allPaths =>
    let files := allPaths.filter env.matchesGlob
    if files.length = 0 then
      Except.error ⟨"No files found matching pattern"⟩
    else
      let sortedFiles := sortStrings files
      if cacheEnabled then
        match enrichWithCacheInfo env sortedFiles with
        | Except.ok fs => Except.ok fs
        | Except.error e => Except.error ⟨"Failed to discover files: " ++ e⟩
      else Except.ok (sortedFiles.map (fun p => FileInfo.mk p none none))

/-- The persisted cache file as found on disk at `loadCache` time. -/
inductive CacheFileState where
  | missing
  | corrupt
  | valid (entries : List (String × String))
deriving DecidableEq, Repr

/-- Method `FileDiscovery.loadCache`: a missing file leaves the (empty) in-memory
map untouched; a corrupt file is caught and the map cleared; a valid file
becomes the mapping.  Total: no error escapes. -/
def loadCache : CacheFileState → List (String × String)
  | CacheFileState.missing => []
  | CacheFileState.corrupt => []
  | CacheFileState.valid entries => entries

/-- Method `FileDiscovery.hasFileChanged`: the test `cachedHash !== currentHash`
(an absent entry compares unequal to any hash). -/
def hasFileChanged (fileCache : List (String × String))
    (filePath currentHash : String) : Bool :=
  decide (¬ listFind fileCache filePath = some currentHash)

/-- The in-memory map update performed by `FileDiscovery.saveCache`: set each
hashed file's entry. -/
def saveCacheMap (fileCache : List (String × String)) (files : List FileInfo) :
    List (String × String) :=
  files.foldl
    (fun c f => match f.hash with
                | some h => listSet c f.path h
                | none => c)
    fileCache

/-- The entry fold of `mergeSchemas`, definitions component. -/
def mergeEntries (acc : List (String × SchemaNode)) (l : List (String × Schema)) :
    List (String × SchemaNode) :=
  l.foldl (fun a e => mergeFileInto a e.2) acc

/-- The last structural definition of a symbol over a list of entries, in
list order (`none` when no entry declares the symbol). -/
def lastDeclVal (l : List (String × Schema)) (s : String) : Option SchemaNode :=
  l.foldl
    (fun r e => if s ∈ listKeys e.2.definitions then some (defAt e.2.definitions s) else r)
    none

/-- The first non-empty dialect among the entries, in list order. -/
def firstDeclaredDialect (l : List (String × Schema)) : Option String :=
  (l.find? (fun e => e.2.schemaVersion != "")).map (fun e => e.2.schemaVersion)

/-- The (path, schema) pairs of the artifacts whose extraction succeeds, in
sorted-path order — the expected content of the consolidated map. -/
def successEntries (extract : String → Except String Schema)
    (files : List FileInfo) : List (String × Schema) :=
  (List.insertionSort (fun a b => strLe a.path b.path) files).filterMap
    (fun f => match extract f.path with
              | Except.ok s => some (f.path, s)
              | Except.error _ => none)

/-- The wrapped error messages of the artifacts whose extraction fails, in
sorted-path order — the expected content of the collected error report. -/
def failureMessages (extract : String → Except String Schema)
    (files : List FileInfo) : List String :=
  (List.insertionSort (fun a b => strLe a.path b.path) files).filterMap
    (fun f => match extract f.path with
              | Except.ok _ => none
              | Except.error e => some ("Failed to process " ++ f.path ++ ": " ++ e))

/-- The collected per-file error list of a `processFiles` run (the `errors`
array that `consolidateSchemas` accumulates and reports). -/
def processFilesErrors (extract : String → Except String Schema) (parallel : Bool)
    (files : List FileInfo) : List String :=
  let sortedFiles := List.insertionSort (fun a b => strLe a.path b.path) files
  let results := if parallel then processInParallel extract sortedFiles
                 else processSequentially extract sortedFiles
  (consolidateSchemas results).2

instance : IsTotal FileInfo (fun a b => strLe a.path b.path) :=
  ⟨fun a b => le_total a.path.data b.path.data⟩

instance : IsTrans FileInfo (fun a b => strLe a.path b.path) :=
  ⟨fun _ _ _ h1 h2 => le_trans h1 h2⟩

/-! ### Association-list lemmas -/

theorem listFind_listUpdate_self {α : Type} (o : List (String × α)) (k : String) (v : α) :
    listFind (listUpdate o k v) k = (listFind o k).map (fun _ => v) := by
  induction o with
  | nil => rfl
  | cons p rest ih =>
    by_cases h : p.1 = k
    · simp [listUpdate, listFind, h]
    · simp [listUpdate, listFind, h, ih]

theorem listFind_listUpdate_ne {α : Type} (o : List (String × α)) (k k2 : String) (v : α)
    (h : k2 ≠ k) : listFind (listUpdate o k v) k2 = listFind o k2 := by
  induction o with
  | nil => rfl
  | cons p rest ih =>
    simp only [listUpdate]
    by_cases hp : p.1 = k
    · simp [listFind, hp, Ne.symm h, ih]
    · simp only [if_neg hp]
      by_cases hp2 : p.1 = k2
      · simp [listFind, hp2]
      · simp [listFind, hp2, ih]

theorem listFind_append {α : Type} (o o2 : List (String × α)) (k : String) :
    listFind (o ++ o2) k =
      match listFind o k with
      | some v => some v
      | none => listFind o2 k := by
  induction o with
  | nil => rfl
  | cons p rest ih =>
    by_cases h : p.1 = k
    · simp [listFind, h]
    · simp [listFind, h, ih]

theorem listFind_isSome_iff_mem {α : Type} (o : List (String × α)) (k : String) :
    (listFind o k).isSome ↔ k ∈ listKeys o := by
  induction o with
  | nil => simp [listFind, listKeys]
  | cons p rest ih =>
    by_cases h : p.1 = k
    · simp [listFind, listKeys, h]
    · simp [listFind, listKeys, h, ih, Ne.symm h]

theorem listFind_eq_none_of_not_mem {α : Type} {o : List (String × α)} {k : String}
    (h : ¬ k ∈ listKeys o) : listFind o k = none := by
  cases hf : listFind o k with
  | none => rfl
  | some v =>
    exact absurd ((listFind_isSome_iff_mem o k).mp (by simp [hf])) h

theorem listFind_listSet_self {α : Type} (o : List (String × α)) (k : String) (v : α) :
    listFind (listSet o k v) k = some v := by
  unfold listSet
  by_cases h : k ∈ listKeys o
  · rw [if_pos h, listFind_listUpdate_self]
    rcases Option.isSome_iff_exists.mp ((listFind_isSome_iff_mem o k).mpr h) with ⟨w, hw⟩
    simp [hw]
  · rw [if_neg h, listFind_append, listFind_eq_none_of_not_mem h]
    simp [listFind]

theorem listFind_listSet_ne {α : Type} (o : List (String × α)) (k k2 : String) (v : α)
    (h : k2 ≠ k) : listFind (listSet o k v) k2 = listFind o k2 := by
  unfold listSet
  by_cases hm : k ∈ listKeys o
  · rw [if_pos hm, listFind_listUpdate_ne _ _ _ _ h]
  · rw [if_neg hm, listFind_append]
    cases hf : listFind o k2 with
    | some w => rfl
    | none => simp [listFind, Ne.symm h]

theorem listKeys_listUpdate {α : Type} (o : List (String × α)) (k : String) (v : α) :
    listKeys (listUpdate o k v) = listKeys o := by
  induction o with
  | nil => rfl
  | cons p rest ih =>
    by_cases hp : p.1 = k
    · simp [listUpdate, listKeys, hp]
      simpa [listKeys] using ih
    · simp [listUpdate, listKeys, hp]
      simpa [listKeys] using ih

theorem listKeys_listSet_mem {α : Type} (o : List (String × α)) (k : String) (v : α)
    (h : k ∈ listKeys o) : listKeys (listSet o k v) = listKeys o := by
  unfold listSet
  rw [if_pos h, listKeys_listUpdate]

theorem listKeys_listSet_not_mem {α : Type} (o : List (String × α)) (k : String) (v : α)
    (h : ¬ k ∈ listKeys o) : listKeys (listSet o k v) = listKeys o ++ [k] := by
  unfold listSet
  rw [if_neg h]
  simp [listKeys]

theorem mem_listKeys_listSet {α : Type} (o : List (String × α)) (k k2 : String) (v : α) :
    k2 ∈ listKeys (listSet o k v) ↔ k2 ∈ listKeys o ∨ k2 = k := by
  by_cases h : k ∈ listKeys o
  · rw [listKeys_listSet_mem _ _ _ h]
    constructor
    · exact Or.inl
    · rintro (h2 | rfl)
      · exact h2
      · exact h
  · rw [listKeys_listSet_not_mem _ _ _ h]
    simp

theorem nodup_listKeys_listSet {α : Type} (o : List (String × α)) (k : String) (v : α)
    (h : (listKeys o).Nodup) : (listKeys (listSet o k v)).Nodup := by
  by_cases hm : k ∈ listKeys o
  · rw [listKeys_listSet_mem _ _ _ hm]; exact h
  · rw [listKeys_listSet_not_mem _ _ _ hm]
    simpa [List.nodup_append] using ⟨h, hm⟩

/-! ### Merge-fold characterization -/

theorem listFind_foldl_set (kl : List String) (defs : List (String × SchemaNode))
    (acc : List (String × SchemaNode)) (s : String) :
    listFind (kl.foldl (fun a k => listSet a k (defAt defs k)) acc) s =
      if s ∈ kl then some (defAt defs s) else listFind acc s := by
  induction kl generalizing acc with
  | nil => simp
  | cons k rest ih =>
    simp only [List.foldl_cons]
    rw [ih]
    by_cases hr : s ∈ rest
    · simp [hr]
    · by_cases hk : s = k
      · subst hk
        simp [hr, listFind_listSet_self]
      · simp [hr, hk, listFind_listSet_ne _ _ _ _ hk]

theorem mem_sortStrings (l : List String) (s : String) :
    s ∈ sortStrings l ↔ s ∈ l :=
  (List.perm_insertionSort _ l).mem_iff

theorem listFind_mergeFileInto (acc : List (String × SchemaNode)) (S : Schema) (s : String) :
    listFind (mergeFileInto acc S) s =
      if s ∈ listKeys S.definitions then some (defAt S.definitions s)
      else listFind acc s := by
  unfold mergeFileInto
  rw [listFind_foldl_set]
  simp only [mem_sortStrings]

theorem mem_listKeys_foldl_set (kl : List String) (defs : List (String × SchemaNode))
    (acc : List (String × SchemaNode)) (s : String) :
    s ∈ listKeys (kl.foldl (fun a k => listSet a k (defAt defs k)) acc) ↔
      s ∈ listKeys acc ∨ s ∈ kl := by
  induction kl generalizing acc with
  | nil => simp
  | cons k rest ih =>
    simp only [List.foldl_cons]
    rw [ih, mem_listKeys_listSet]
    constructor
    · rintro ((h | h) | h)
      · exact Or.inl h
      · exact Or.inr (by simp [h])
      · exact Or.inr (by simp [h])
    · rintro (h | h)
      · exact Or.inl (Or.inl h)
      · rcases List.mem_cons.mp h with h | h
        · exact Or.inl (Or.inr h)
        · exact Or.inr h

theorem nodup_listKeys_foldl_set (kl : List String) (defs : List (String × SchemaNode))
    (acc : List (String × SchemaNode)) (h : (listKeys acc).Nodup) :
    (listKeys (kl.foldl (fun a k => listSet a k (defAt defs k)) acc)).Nodup := by
  induction kl generalizing acc with
  | nil => exact h
  | cons k rest ih =>
    simp only [List.foldl_cons]
    exact ih _ (nodup_listKeys_listSet _ _ _ h)

theorem mem_listKeys_mergeFileInto (acc : List (String × SchemaNode)) (S : Schema) (s : String) :
    s ∈ listKeys (mergeFileInto acc S) ↔
      s ∈ listKeys acc ∨ s ∈ listKeys S.definitions := by
  unfold mergeFileInto
  rw [mem_listKeys_foldl_set]
  simp only [mem_sortStrings]

theorem nodup_listKeys_mergeFileInto (acc : List (String × SchemaNode)) (S : Schema)
    (h : (listKeys acc).Nodup) : (listKeys (mergeFileInto acc S)).Nodup :=
  nodup_listKeys_foldl_set _ _ _ h

theorem listFind_mergeEntries (l : List (String × Schema))
    (acc : List (String × SchemaNode)) (s : String) :
    listFind (mergeEntries acc l) s =
      l.foldl
        (fun r e => if s ∈ listKeys e.2.definitions then some (defAt e.2.definitions s) else r)
        (listFind acc s) := by
  unfold mergeEntries
  induction l generalizing acc with
  | nil => rfl
  | cons e rest ih =>
    simp only [List.foldl_cons]
    rw [ih, listFind_mergeFileInto]

theorem mem_listKeys_mergeEntries (l : List (String × Schema))
    (acc : List (String × SchemaNode)) (s : String) :
    s ∈ listKeys (mergeEntries acc l) ↔
      s ∈ listKeys acc ∨ ∃ e ∈ l, s ∈ listKeys e.2.definitions := by
  unfold mergeEntries
  induction l generalizing acc with
  | nil => simp
  | cons e rest ih =>
    simp only [List.foldl_cons]
    rw [ih, mem_listKeys_mergeFileInto]
    constructor
    · rintro ((h | h) | ⟨e2, he2, hs⟩)
      · exact Or.inl h
      · exact Or.inr ⟨e, by simp, h⟩
      · exact Or.inr ⟨e2, by simp [he2], hs⟩
    · rintro (h | ⟨e2, he2, hs⟩)
      · exact Or.inl (Or.inl h)
      · rcases List.mem_cons.mp he2 with rfl | he2
        · exact Or.inl (Or.inr hs)
        · exact Or.inr ⟨e2, he2, hs⟩

theorem nodup_listKeys_mergeEntries (l : List (String × Schema))
    (acc : List (String × SchemaNode)) (h : (listKeys acc).Nodup) :
    (listKeys (mergeEntries acc l)).Nodup := by
  unfold mergeEntries
  induction l generalizing acc with
  | nil => exact h
  | cons e rest ih =>
    exact ih _ (nodup_listKeys_mergeFileInto _ _ h)

/-! ### sortObj and mergeSchemas characterization -/

theorem listFind_of_mem_keys {α : Type} (o : List (String × α)) (k : String)
    (h : k ∈ listKeys o) : ∃ v, listFind o k = some v := by
  rcases Option.isSome_iff_exists.mp ((listFind_isSome_iff_mem o k).mpr h) with ⟨v, hv⟩
  exact ⟨v, hv⟩

theorem listFind_eq_defAt_of_mem (o : List (String × SchemaNode)) (k : String)
    (h : k ∈ listKeys o) : listFind o k = some (defAt o k) := by
  rcases listFind_of_mem_keys o k h with ⟨v, hv⟩
  simp [defAt, hv]

theorem listFind_map_pair (kl : List String) (o : List (String × SchemaNode)) (s : String) :
    listFind (kl.map (fun k => (k, defAt o k))) s =
      if s ∈ kl then some (defAt o s) else none := by
  induction kl with
  | nil => simp [listFind]
  | cons k rest ih =>
    by_cases hk : k = s
    · subst hk
      simp [listFind, ih]
    · simp [listFind, hk, Ne.symm hk, ih]

theorem listFind_sortObj (o : List (String × SchemaNode)) (s : String) :
    listFind (sortObj o) s = listFind o s := by
  unfold sortObj
  rw [listFind_map_pair]
  simp only [mem_sortStrings]
  by_cases h : s ∈ listKeys o
  · rw [if_pos h, listFind_eq_defAt_of_mem o s h]
  · rw [if_neg h, listFind_eq_none_of_not_mem h]

theorem listKeys_sortObj (o : List (String × SchemaNode)) :
    listKeys (sortObj o) = sortStrings (listKeys o) := by
  unfold sortObj listKeys
  rw [List.map_map]
  have h : (Prod.fst ∘ fun k => (k, defAt o k)) = id := rfl
  rw [h, List.map_id]

/-- Decomposition of the paired fold of `mergeSchemas` into its version
component and its definitions component. -/
theorem mergeFold_eq (l : List (String × Schema)) (sv : String)
    (acc : List (String × SchemaNode)) :
    l.foldl (fun (st : String × List (String × SchemaNode)) e =>
        (stepVersion st.1 e.2, mergeFileInto st.2 e.2)) (sv, acc) =
      (l.foldl (fun v e => stepVersion v e.2) sv, mergeEntries acc l) := by
  induction l generalizing sv acc with
  | nil => rfl
  | cons e rest ih =>
    simp only [List.foldl_cons, mergeEntries]
    rw [ih]
    rfl

theorem foldVersion_spec (l : List (String × Schema)) (sv : String) :
    l.foldl (fun v e => stepVersion v e.2) sv =
      if sv = "" then (firstDeclaredDialect l).getD "" else sv := by
  induction l generalizing sv with
  | nil =>
    by_cases hsv : sv = "" <;> simp [firstDeclaredDialect, hsv]
  | cons e rest ih =>
    simp only [List.foldl_cons]
    by_cases hsv : sv = ""
    · subst hsv
      by_cases he : e.2.schemaVersion = ""
      · rw [show stepVersion "" e.2 = "" by simp [stepVersion, he]]
        rw [ih]
        simp [firstDeclaredDialect, List.find?_cons, he]
      · rw [show stepVersion "" e.2 = e.2.schemaVersion by simp [stepVersion, he]]
        rw [ih]
        simp [firstDeclaredDialect, List.find?_cons, he]
    · rw [show stepVersion sv e.2 = sv by simp [stepVersion, hsv]]
      rw [ih]
      simp [hsv]

theorem mergeSchemas_definitions (m : List (String × Schema)) :
    (mergeSchemas m).definitions = sortObj (mergeEntries [] (sortEntries m)) := by
  unfold mergeSchemas
  rw [mergeFold_eq]

theorem mergeSchemas_version (m : List (String × Schema)) :
    (mergeSchemas m).schemaVersion =
      match firstDeclaredDialect (sortEntries m) with
      | some d => d
      | none => "http://json-schema.org/draft-07/schema#" := by
  unfold mergeSchemas
  rw [mergeFold_eq]
  simp only [foldVersion_spec, if_pos rfl]
  cases h : firstDeclaredDialect (sortEntries m) with
  | none => simp [h]
  | some d =>
    have hd : d ≠ "" := by
      unfold firstDeclaredDialect at h
      rcases Option.map_eq_some'.mp h with ⟨e, he, hed⟩
      have := List.find?_some he
      simpa [hed] using this
    simp [h, hd]

theorem listFind_mergeSchemas (m : List (String × Schema)) (s : String) :
    listFind (mergeSchemas m).definitions s = lastDeclVal (sortEntries m) s := by
  rw [mergeSchemas_definitions, listFind_sortObj, listFind_mergeEntries]
  rfl

theorem sorted_listKeys_mergeSchemas (m : List (String × Schema)) :
    List.Sorted strLe (listKeys (mergeSchemas m).definitions) := by
  rw [mergeSchemas_definitions, listKeys_sortObj]
  exact List.sorted_insertionSort _ _

theorem nodup_listKeys_mergeSchemas (m : List (String × Schema)) :
    (listKeys (mergeSchemas m).definitions).Nodup := by
  rw [mergeSchemas_definitions, listKeys_sortObj]
  exact ((List.perm_insertionSort _ _).nodup_iff).mpr
    (nodup_listKeys_mergeEntries _ _ (by simp [listKeys]))

theorem mem_listKeys_mergeSchemas (m : List (String × Schema)) (s : String) :
    s ∈ listKeys (mergeSchemas m).definitions ↔
      ∃ e ∈ m, s ∈ listKeys e.2.definitions := by
  rw [mergeSchemas_definitions, listKeys_sortObj, mem_sortStrings,
    mem_listKeys_mergeEntries]
  simp only [listKeys, List.map_nil, List.not_mem_nil, false_or]
  constructor
  · rintro ⟨e, he, hs⟩
    exact ⟨e, (List.perm_insertionSort _ m).mem_iff.mp he, hs⟩
  · rintro ⟨e, he, hs⟩
    exact ⟨e, (List.perm_insertionSort _ m).mem_iff.mpr he, hs⟩

theorem listKeys_mergeSchemas_perm (m m2 : List (String × Schema)) (hperm : m.Perm m2) :
    listKeys (mergeSchemas m2).definitions = listKeys (mergeSchemas m).definitions := by
  refine List.eq_of_perm_of_sorted ?_ (sorted_listKeys_mergeSchemas m2)
    (sorted_listKeys_mergeSchemas m)
  apply List.perm_of_nodup_nodup_toFinset_eq (nodup_listKeys_mergeSchemas m2)
    (nodup_listKeys_mergeSchemas m)
  ext s
  simp only [List.mem_toFinset, mem_listKeys_mergeSchemas]
  constructor
  · rintro ⟨e, he, hs⟩
    exact ⟨e, hperm.mem_iff.mpr he, hs⟩
  · rintro ⟨e, he, hs⟩
    exact ⟨e, hperm.mem_iff.mp he, hs⟩

/-! ### Validation characterization -/

theorem processKeys_ok_eq_foldl (fp : String) (defs : List (String × SchemaNode))
    (kl : List String) (acc acc2 : List (String × SchemaNode))
    (h : processKeys fp defs acc kl = Except.ok acc2) :
    acc2 = kl.foldl (fun a k => listSet a k (defAt defs k)) acc := by
  induction kl generalizing acc with
  | nil =>
    simp only [processKeys, List.foldlM_nil] at h
    cases h
    rfl
  | cons k rest ih =>
    simp only [processKeys, List.foldlM_cons] at h
    simp only [List.foldl_cons]
    cases hf : listFind acc k with
    | some existing =>
      simp only [hf] at h
      by_cases he : existing = defAt defs k
      · rw [if_pos he] at h
        simp only [Bind.bind, Except.bind] at h
        exact ih _ h
      · rw [if_neg he] at h
        simp [Bind.bind, Except.bind] at h
    | none =>
      simp only [hf, Bind.bind, Except.bind] at h
      exact ih _ h

theorem processKeys_ok_compat (fp : String) (defs : List (String × SchemaNode))
    (kl : List String) (acc acc2 : List (String × SchemaNode)) (s : String)
    (e : SchemaNode) (h : processKeys fp defs acc kl = Except.ok acc2)
    (hs : s ∈ kl) (he : listFind acc s = some e) : e = defAt defs s := by
  induction kl generalizing acc with
  | nil => cases hs
  | cons k rest ih =>
    simp only [processKeys, List.foldlM_cons] at h
    by_cases hk : k = s
    · subst hk
      simp only [he] at h
      by_cases heq : e = defAt defs k
      · exact heq
      · rw [if_neg heq] at h
        simp [Bind.bind, Except.bind] at h
    · have hs2 : s ∈ rest := by
        rcases List.mem_cons.mp hs with rfl | hs2
        · exact absurd rfl hk
        · exact hs2
      cases hf : listFind acc k with
      | some existing =>
        simp only [hf] at h
        by_cases heq : existing = defAt defs k
        · rw [if_pos heq] at h
          simp only [Bind.bind, Except.bind] at h
          exact ih _ h hs2 (by rw [listFind_listSet_ne _ _ _ _ (Ne.symm hk), he])
        · rw [if_neg heq] at h
          simp [Bind.bind, Except.bind] at h
      | none =>
        simp only [hf, Bind.bind, Except.bind] at h
        exact ih _ h hs2 (by rw [listFind_listSet_ne _ _ _ _ (Ne.symm hk), he])

theorem validateFile_ok_eq_merge (fp : String) (S : Schema)
    (acc acc2 : List (String × SchemaNode))
    (h : validateFile fp S acc = Except.ok acc2) : acc2 = mergeFileInto acc S :=
  processKeys_ok_eq_foldl fp S.definitions _ acc acc2 h

theorem validateFile_preserve (fp : String) (S : Schema)
    (acc acc2 : List (String × SchemaNode)) (s : String) (d : SchemaNode)
    (h : validateFile fp S acc = Except.ok acc2)
    (hd : listFind acc s = some d) : listFind acc2 s = some d := by
  rw [validateFile_ok_eq_merge fp S acc acc2 h, listFind_mergeFileInto]
  by_cases hm : s ∈ listKeys S.definitions
  · rw [if_pos hm]
    have : d = defAt S.definitions s :=
      processKeys_ok_compat fp S.definitions _ acc acc2 s d h
        ((mem_sortStrings _ _).mpr hm) hd
    rw [this]
  · rw [if_neg hm, hd]

theorem validateFile_binding (fp : String) (S : Schema)
    (acc acc2 : List (String × SchemaNode)) (s : String)
    (h : validateFile fp S acc = Except.ok acc2)
    (hs : s ∈ listKeys S.definitions) :
    listFind acc2 s = some (defAt S.definitions s) := by
  rw [validateFile_ok_eq_merge fp S acc acc2 h, listFind_mergeFileInto, if_pos hs]

theorem validateEntries_preserve (l : List (String × Schema))
    (acc acc2 : List (String × SchemaNode)) (s : String) (d : SchemaNode)
    (h : validateEntries acc l = Except.ok acc2)
    (hd : listFind acc s = some d) : listFind acc2 s = some d := by
  induction l generalizing acc with
  | nil =>
    simp only [validateEntries, List.foldlM_nil] at h
    cases h
    exact hd
  | cons e rest ih =>
    simp only [validateEntries, List.foldlM_cons] at h
    cases hstep : validateFile e.1 e.2 acc with
    | error err =>
      rw [hstep] at h
      simp [Bind.bind, Except.bind] at h
    | ok acc1 =>
      rw [hstep] at h
      simp only [Bind.bind, Except.bind] at h
      exact ih acc1 h (validateFile_preserve e.1 e.2 acc acc1 s d hstep hd)

theorem validateEntries_decl (l : List (String × Schema))
    (acc acc2 : List (String × SchemaNode)) (p : String) (S : Schema) (s : String)
    (h : validateEntries acc l = Except.ok acc2) (hm : (p, S) ∈ l)
    (hs : s ∈ listKeys S.definitions) :
    listFind acc2 s = some (defAt S.definitions s) := by
  induction l generalizing acc with
  | nil => cases hm
  | cons e rest ih =>
    simp only [validateEntries, List.foldlM_cons] at h
    cases hstep : validateFile e.1 e.2 acc with
    | error err =>
      rw [hstep] at h
      simp [Bind.bind, Except.bind] at h
    | ok acc1 =>
      rw [hstep] at h
      simp only [Bind.bind, Except.bind] at h
      rcases List.mem_cons.mp hm with heq | hm2
      · have he2 : e.2 = S := by rw [← heq]
        have hb : listFind acc1 s = some (defAt S.definitions s) := by
          rw [← he2] at hs ⊢
          exact validateFile_binding e.1 e.2 acc acc1 s hstep hs
        exact validateEntries_preserve rest acc1 acc2 s _ h hb
      · exact ih acc1 h hm2

theorem processKeys_append (fp : String) (defs : List (String × SchemaNode))
    (k1 k2 : List String) (acc : List (String × SchemaNode)) :
    processKeys fp defs acc (k1 ++ k2) =
      (processKeys fp defs acc k1).bind (fun a => processKeys fp defs a k2) := by
  induction k1 generalizing acc with
  | nil => rfl
  | cons k rest ih =>
    simp only [List.cons_append, processKeys, List.foldlM_cons]
    cases hf : listFind acc k with
    | some existing =>
      by_cases he : existing = defAt defs k
      · simp only [hf, if_pos he, Bind.bind, Except.bind]
        exact ih _
      · simp only [hf, if_neg he, Bind.bind, Except.bind]
    | none =>
      simp only [hf, Bind.bind, Except.bind]
      exact ih _

theorem validateEntries_append (l1 l2 : List (String × Schema))
    (acc : List (String × SchemaNode)) :
    validateEntries acc (l1 ++ l2) =
      (validateEntries acc l1).bind (fun a => validateEntries a l2) := by
  induction l1 generalizing acc with
  | nil => rfl
  | cons e rest ih =>
    simp only [List.cons_append, validateEntries, List.foldlM_cons]
    cases hstep : validateFile e.1 e.2 acc with
    | error err => simp only [Bind.bind, Except.bind]
    | ok acc1 =>
      simp only [Bind.bind, Except.bind]
      exact ih _

/-- Where the definitions fold ends up for one symbol: either no entry
declares it (value untouched), or the last declaring entry wins. -/
theorem foldl_lastDecl_cases (l : List (String × Schema)) (s : String)
    (r : Option SchemaNode) :
    (l.foldl
        (fun r2 e => if s ∈ listKeys e.2.definitions then some (defAt e.2.definitions s) else r2)
        r = r ∧ ∀ e ∈ l, ¬ s ∈ listKeys e.2.definitions) ∨
    (∃ q T, (q, T) ∈ l ∧ s ∈ listKeys T.definitions ∧
      l.foldl
        (fun r2 e => if s ∈ listKeys e.2.definitions then some (defAt e.2.definitions s) else r2)
        r = some (defAt T.definitions s)) := by
  induction l generalizing r with
  | nil => exact Or.inl ⟨rfl, by simp⟩
  | cons e rest ih =>
    simp only [List.foldl_cons]
    by_cases hk : s ∈ listKeys e.2.definitions
    · rcases ih (if s ∈ listKeys e.2.definitions then some (defAt e.2.definitions s) else r) with
        ⟨heq, hnone⟩ | ⟨q, T, hm, hkT, hv⟩
      · refine Or.inr ⟨e.1, e.2, by simp, hk, ?_⟩
        rw [heq, if_pos hk]
      · exact Or.inr ⟨q, T, by simp [hm], hkT, hv⟩
    · rcases ih (if s ∈ listKeys e.2.definitions then some (defAt e.2.definitions s) else r) with
        ⟨heq, hnone⟩ | ⟨q, T, hm, hkT, hv⟩
      · refine Or.inl ⟨?_, ?_⟩
        · rw [heq, if_neg hk]
        · intro e2 he2
          rcases List.mem_cons.mp he2 with rfl | he2
          · exact hk
          · exact hnone e2 he2
      · exact Or.inr ⟨q, T, by simp [hm], hkT, hv⟩

theorem lastDeclVal_cases (l : List (String × Schema)) (s : String) :
    (lastDeclVal l s = none ∧ ∀ e ∈ l, ¬ s ∈ listKeys e.2.definitions) ∨
    (∃ q T, (q, T) ∈ l ∧ s ∈ listKeys T.definitions ∧
      lastDeclVal l s = some (defAt T.definitions s)) :=
  foldl_lastDecl_cases l s none

/-! ### Processing-mode equivalence and consolidation -/

theorem foldl_append_singleton {A B : Type} (l : List A) (g : A → B) (init : List B) :
    l.foldl (fun acc f => acc ++ [g f]) init = init ++ l.map g := by
  induction l generalizing init with
  | nil => simp
  | cons x rest ih =>
    simp only [List.foldl_cons, List.map_cons]
    rw [ih]
    simp

theorem processSequentially_eq_parallel (extract : String → Except String Schema)
    (files : List FileInfo) :
    processSequentially extract files = processInParallel extract files := by
  unfold processSequentially processInParallel
  rw [foldl_append_singleton]
  simp

theorem settleResult_file (extract : String → Except String Schema) (f : FileInfo) :
    (settleResult extract f).file = f.path := by
  unfold settleResult processFile
  cases extract f.path <;> rfl

theorem consolidate_foldl_map (extract : String → Except String Schema)
    (l : List FileInfo) (st : List (String × Schema) × List String)
    (hdisj : ∀ f ∈ l, ¬ f.path ∈ listKeys st.1)
    (hnd : (l.map FileInfo.path).Nodup) :
    (l.map (settleResult extract)).foldl consolidateStep st =
      (st.1 ++ l.filterMap (fun f => match extract f.path with
         | Except.ok s => some (f.path, s)
         | Except.error _ => none),
       st.2 ++ l.filterMap (fun f => match extract f.path with
         | Except.ok _ => none
         | Except.error e => some ("Failed to process " ++ f.path ++ ": " ++ e))) := by
  induction l generalizing st with
  | nil => simp
  | cons f rest ih =>
    simp only [List.map_cons, List.foldl_cons, List.filterMap_cons]
    have hndr : (rest.map FileInfo.path).Nodup := (List.nodup_cons.mp hnd).2
    have hfr : ¬ f.path ∈ rest.map FileInfo.path := (List.nodup_cons.mp hnd).1
    cases hx : extract f.path with
    | ok s =>
      have hset : settleResult extract f = ⟨f.path, some s, none⟩ := by
        unfold settleResult processFile
        rw [hx]
      rw [hset]
      have hstep : consolidateStep st ⟨f.path, some s, none⟩ =
          (listSet st.1 f.path s, st.2) := rfl
      rw [hstep]
      have hnotin : ¬ f.path ∈ listKeys st.1 := hdisj f (by simp)
      have hsetapp : listSet st.1 f.path s = st.1 ++ [(f.path, s)] := by
        unfold listSet
        rw [if_neg hnotin]
      rw [hsetapp]
      rw [ih (st.1 ++ [(f.path, s)], st.2) ?_ hndr]
      · simp
      · intro g hg
        simp only [listKeys, List.map_append, List.mem_append]
        rintro (hg1 | hg2)
        · exact hdisj g (by simp [hg]) hg1
        · simp at hg2
          exact hfr (hg2 ▸ List.mem_map_of_mem FileInfo.path hg)
    | error e =>
      have hset : settleResult extract f =
          ⟨f.path, none, some ("Failed to process " ++ f.path ++ ": " ++ e)⟩ := by
        unfold settleResult processFile
        rw [hx]
      rw [hset]
      have hstep : consolidateStep st
          ⟨f.path, none, some ("Failed to process " ++ f.path ++ ": " ++ e)⟩ =
          (st.1, st.2 ++ [("Failed to process " ++ f.path ++ ": " ++ e)]) := rfl
      rw [hstep]
      rw [ih (st.1, st.2 ++ [("Failed to process " ++ f.path ++ ": " ++ e)]) ?_ hndr]
      · simp
      · intro g hg
        exact hdisj g (by simp [hg])

theorem processFiles_characterization (extract : String → Except String Schema)
    (parallel : Bool) (files : List FileInfo)
    (hnd : (files.map FileInfo.path).Nodup) :
    processFiles extract parallel files = successEntries extract files ∧
    processFilesErrors extract parallel files = failureMessages extract files := by
  have hmode :
      (if parallel then
        processInParallel extract (List.insertionSort (fun a b => strLe a.path b.path) files)
      else
        processSequentially extract (List.insertionSort (fun a b => strLe a.path b.path) files)) =
      processInParallel extract (List.insertionSort (fun a b => strLe a.path b.path) files) := by
    cases parallel
    · simp [processSequentially_eq_parallel]
    · simp
  have hsortedf :
      List.Sorted (fun a b => strLe a.path b.path)
        (List.insertionSort (fun a b => strLe a.path b.path) files) :=
    List.sorted_insertionSort _ _
  have hsortedr :
      List.Sorted (fun a b => strLe a.file b.file)
        (processInParallel extract (List.insertionSort (fun a b => strLe a.path b.path) files)) := by
    unfold processInParallel
    apply List.Pairwise.map
    · intro a b hab
      rw [settleResult_file, settleResult_file]
      exact hab
    · exact hsortedf
  have hndsf :
      ((List.insertionSort (fun a b => strLe a.path b.path) files).map FileInfo.path).Nodup :=
    (((List.perm_insertionSort (fun a b => strLe a.path b.path) files).map
      FileInfo.path).nodup_iff).mpr hnd
  have hchar := consolidate_foldl_map extract
    (List.insertionSort (fun a b => strLe a.path b.path) files) ([], [])
    (by intro f _; simp [listKeys]) hndsf
  constructor
  · show (consolidateSchemas
        (if parallel then
          processInParallel extract (List.insertionSort (fun a b => strLe a.path b.path) files)
        else
          processSequentially extract
            (List.insertionSort (fun a b => strLe a.path b.path) files))).1 =
      successEntries extract files
    rw [hmode]
    unfold consolidateSchemas
    rw [List.Sorted.insertionSort_eq hsortedr]
    unfold processInParallel at hchar ⊢
    rw [hchar]
    simp [successEntries]
  · show (consolidateSchemas
        (if parallel then
          processInParallel extract (List.insertionSort (fun a b => strLe a.path b.path) files)
        else
          processSequentially extract
            (List.insertionSort (fun a b => strLe a.path b.path) files))).2 =
      failureMessages extract files
    rw [hmode]
    unfold consolidateSchemas
    rw [List.Sorted.insertionSort_eq hsortedr]
    unfold processInParallel at hchar ⊢
    rw [hchar]
    simp [failureMessages]

/-! ### Discovery characterization -/

theorem statHashAll_ok_paths (env : DiscoveryEnv) (files : List String)
    (fs : List FileInfo) (h : statHashAll env files = Except.ok fs) :
    fs.map FileInfo.path = files := by
  induction files generalizing fs with
  | nil =>
    simp only [statHashAll] at h
    cases h
    rfl
  | cons p rest ih =>
    simp only [statHashAll] at h
    cases hs : env.statHash p with
    | error e => rw [hs] at h; cases h
    | ok hm =>
      rw [hs] at h
      cases hr : statHashAll env rest with
      | error e => rw [hr] at h; cases h
      | ok fs2 =>
        rw [hr] at h
        cases h
        simp [ih fs2 hr]

theorem statHashAll_ok_iff (env : DiscoveryEnv) (files : List String) :
    exceptOk (statHashAll env files) = true ↔
      ∀ p ∈ files, exceptOk (env.statHash p) = true := by
  induction files with
  | nil => simp [statHashAll, exceptOk]
  | cons p rest ih =>
    simp only [statHashAll]
    cases hs : env.statHash p with
    | error e => simp [exceptOk, hs]
    | ok hm =>
      cases hr : statHashAll env rest with
      | error e =>
        rw [hr] at ih
        simp only [exceptOk] at ih ⊢
        simp only [List.mem_cons]
        constructor
        · intro hfalse; cases hfalse
        · intro hall
          exact absurd (ih.mpr (fun q hq => hall q (Or.inr hq))) (by simp)
      | ok fs2 =>
        rw [hr] at ih
        simp only [exceptOk] at ih ⊢
        simp only [List.mem_cons]
        constructor
        · intro _ q hq
          rcases hq with rfl | hq
          · simp [hs, exceptOk]
          · exact ih.mp trivial q hq
        · intro _
          trivial

theorem enrichWithCacheInfo_ok_paths (env : DiscoveryEnv) (files : List String)
    (fs : List FileInfo) (h : enrichWithCacheInfo env files = Except.ok fs) :
    fs.map FileInfo.path = files := by
  unfold enrichWithCacheInfo at h
  cases hs : statHashAll env files with
  | error e =>
    rw [hs] at h
    simp [Except.bind] at h
  | ok enriched =>
    rw [hs] at h
    simp only [Except.bind] at h
    cases hw : env.writeCache with
    | error e => rw [hw] at h; simp [Except.map] at h
    | ok u =>
      rw [hw] at h
      simp only [Except.map] at h
      cases h
      exact statHashAll_ok_paths env files fs hs

theorem enrichWithCacheInfo_ok_iff (env : DiscoveryEnv) (files : List String) :
    exceptOk (enrichWithCacheInfo env files) = true ↔
      (∀ p ∈ files, exceptOk (env.statHash p) = true) ∧
        exceptOk env.writeCache = true := by
  unfold enrichWithCacheInfo
  cases hs : statHashAll env files with
  | error e =>
    rw [← statHashAll_ok_iff]
    simp only [Except.bind, hs]
    simp [exceptOk]
  | ok enriched =>
    have hok : exceptOk (statHashAll env files) = true := by simp [hs, exceptOk]
    rw [← statHashAll_ok_iff]
    simp only [Except.bind, hs]
    cases hw : env.writeCache with
    | error e => simp [Except.map, exceptOk, hok]
    | ok u => simp [Except.map, exceptOk, hok]

/-! ### Claim theorems -/

/-- C1: the definition keys of the merged `ConsolidatedSchema` are sorted in
ascending ordinal (code-point lexicographic, not locale-aware) order, this
key order is identical for any permutation of the input schema map, and on
fragments declaring `Zebra`, `Apple`, `Middle` the output keys are exactly
`[Apple, Middle, Zebra]`. -/
theorem merged_keys_sorted_and_permutation_invariant
    (m m2 : List (String × Schema)) (hperm : m.Perm m2) :
    List.Sorted strLe (listKeys (mergeSchemas m).definitions) ∧
    listKeys (mergeSchemas m2).definitions = listKeys (mergeSchemas m).definitions ∧
    listKeys (mergeSchemas
      [("one.ts", Schema.mk "" [("Zebra", SchemaNode.leaf "z")]),
       ("two.ts", Schema.mk "" [("Apple", SchemaNode.leaf "a")]),
       ("three.ts", Schema.mk "" [("Middle", SchemaNode.leaf "m")])]).definitions =
      ["Apple", "Middle", "Zebra"] :=
  ⟨sorted_listKeys_mergeSchemas m, listKeys_mergeSchemas_perm m m2 hperm, by decide⟩

/-- Witness for C1 at a concrete permuted pair of schema maps. -/
theorem merged_keys_sorted_and_permutation_invariant_witness :
    ([("b.ts", Schema.mk "" [("B", SchemaNode.leaf "1")]),
      ("a.ts", Schema.mk "" [("A", SchemaNode.leaf "2")])] : List (String × Schema)).Perm
      [("a.ts", Schema.mk "" [("A", SchemaNode.leaf "2")]),
       ("b.ts", Schema.mk "" [("B", SchemaNode.leaf "1")])] ∧
    (List.Sorted strLe (listKeys (mergeSchemas
      [("b.ts", Schema.mk "" [("B", SchemaNode.leaf "1")]),
       ("a.ts", Schema.mk "" [("A", SchemaNode.leaf "2")])]).definitions) ∧
     listKeys (mergeSchemas
      [("a.ts", Schema.mk "" [("A", SchemaNode.leaf "2")]),
       ("b.ts", Schema.mk "" [("B", SchemaNode.leaf "1")])]).definitions =
     listKeys (mergeSchemas
      [("b.ts", Schema.mk "" [("B", SchemaNode.leaf "1")]),
       ("a.ts", Schema.mk "" [("A", SchemaNode.leaf "2")])]).definitions ∧
     listKeys (mergeSchemas
      [("one.ts", Schema.mk "" [("Zebra", SchemaNode.leaf "z")]),
       ("two.ts", Schema.mk "" [("Apple", SchemaNode.leaf "a")]),
       ("three.ts", Schema.mk "" [("Middle", SchemaNode.leaf "m")])]).definitions =
      ["Apple", "Middle", "Zebra"]) :=
  ⟨by decide, merged_keys_sorted_and_permutation_invariant _ _ (by decide)⟩

/-- C2: with a deterministic per-artifact extractor, concurrent processing
(batch dispatch, results mapped back by index) and sequential processing
(one artifact at a time) produce the identical consolidated schema map. -/
theorem processFiles_parallel_eq_sequential
    (extract : String → Except String Schema) (files : List FileInfo) :
    processFiles extract true files = processFiles extract false files := by
  show (consolidateSchemas (processInParallel extract
      (List.insertionSort (fun a b => strLe a.path b.path) files))).1 =
    (consolidateSchemas (processSequentially extract
      (List.insertionSort (fun a b => strLe a.path b.path) files))).1
  rw [processSequentially_eq_parallel]

/-- C8: the merged dialect is the `$schema` of the first fragment in sorted
order that declares a non-empty one, else the fixed draft-07 default. -/
theorem mergeSchemas_dialect_first_declared (m : List (String × Schema)) :
    (mergeSchemas m).schemaVersion =
      match (sortEntries m).find? (fun e => e.2.schemaVersion != "") with
      | some e => e.2.schemaVersion
      | none => "http://json-schema.org/draft-07/schema#" := by
  rw [mergeSchemas_version]
  unfold firstDeclaredDialect
  cases h : (sortEntries m).find? (fun e => e.2.schemaVersion != "") <;> simp [h]

/-- C10: `mergeSchemas` is a total function that performs no conflict
detection — the node recorded for every symbol is the one of the last file in
sorted-path order declaring it; concretely, two files declaring `S` with
different structures merge without error to the later node, while
`validateSchemaCompatibility` rejects the same map, so duplicate rejection
depends entirely on validation running before merge. -/
theorem mergeSchemas_last_writer_wins (m : List (String × Schema)) (s : String) :
    listFind (mergeSchemas m).definitions s = lastDeclVal (sortEntries m) s ∧
    mergeSchemas
      [("a.ts", Schema.mk "" [("S", SchemaNode.leaf "first")]),
       ("b.ts", Schema.mk "" [("S", SchemaNode.leaf "second")])] =
      Schema.mk "http://json-schema.org/draft-07/schema#"
        [("S", SchemaNode.leaf "second")] ∧
    validateSchemaCompatibility
      [("a.ts", Schema.mk "" [("S", SchemaNode.leaf "first")]),
       ("b.ts", Schema.mk "" [("S", SchemaNode.leaf "second")])] =
      Except.error ⟨dupMessage "S", "S", "b.ts",
        SchemaNode.leaf "first", SchemaNode.leaf "second"⟩ :=
  ⟨listFind_mergeSchemas m s, rfl, rfl⟩

/-- C5: when compatibility validation succeeds, two artifacts declaring the
same symbol with structurally identical nodes merge into exactly one entry
for that symbol holding the shared definition, and every symbol name of the
merged output is unique. -/
theorem merge_duplicate_identical
    (m : List (String × Schema)) (p1 p2 s : String) (S1 S2 : Schema) (d : SchemaNode)
    (hval : validateSchemaCompatibility m = Except.ok ())
    (h1 : (p1, S1) ∈ m) (h2 : (p2, S2) ∈ m)
    (hd1 : listFind S1.definitions s = some d)
    (hd2 : listFind S2.definitions s = some d) :
    listFind (mergeSchemas m).definitions s = some d ∧
    (listKeys (mergeSchemas m).definitions).count s = 1 ∧
    (listKeys (mergeSchemas m).definitions).Nodup := by
  have hs1 : s ∈ listKeys S1.definitions :=
    (listFind_isSome_iff_mem _ _).mp (by simp [hd1])
  have hdef1 : defAt S1.definitions s = d := by simp [defAt, hd1]
  have h1s : (p1, S1) ∈ sortEntries m :=
    (List.perm_insertionSort _ m).mem_iff.mpr h1
  obtain ⟨acc2, hacc⟩ : ∃ acc2, validateEntries [] (sortEntries m) = Except.ok acc2 := by
    unfold validateSchemaCompatibility at hval
    cases hv : validateEntries [] (sortEntries m) with
    | error err => rw [hv] at hval; simp [Except.map] at hval
    | ok acc2 => exact ⟨acc2, rfl⟩
  have ha1 : listFind acc2 s = some d := by
    rw [← hdef1]
    exact validateEntries_decl _ [] acc2 p1 S1 s hacc h1s hs1
  have hmem : s ∈ listKeys (mergeSchemas m).definitions :=
    (mem_listKeys_mergeSchemas m s).mpr ⟨(p1, S1), h1, hs1⟩
  refine ⟨?_, ?_, nodup_listKeys_mergeSchemas m⟩
  · rw [listFind_mergeSchemas]
    rcases lastDeclVal_cases (sortEntries m) s with ⟨_, hnone⟩ | ⟨q, T, hmT, hkT, hv⟩
    · exact absurd hs1 (hnone (p1, S1) h1s)
    · have haT : listFind acc2 s = some (defAt T.definitions s) :=
        validateEntries_decl _ [] acc2 q T s hacc hmT hkT
      rw [ha1] at haT
      rw [hv, ← Option.some_inj.mp haT]
  · exact List.count_eq_one_of_mem (nodup_listKeys_mergeSchemas m) hmem

/-- Witness for C5: two files both declaring `IUser` with the same shape. -/
theorem merge_duplicate_identical_witness :
    validateSchemaCompatibility
      [("u1.ts", Schema.mk "" [("IUser", SchemaNode.leaf "user")]),
       ("u2.ts", Schema.mk "" [("IUser", SchemaNode.leaf "user")])] = Except.ok () ∧
    (listFind (mergeSchemas
      [("u1.ts", Schema.mk "" [("IUser", SchemaNode.leaf "user")]),
       ("u2.ts", Schema.mk "" [("IUser", SchemaNode.leaf "user")])]).definitions "IUser" =
        some (SchemaNode.leaf "user") ∧
     (listKeys (mergeSchemas
      [("u1.ts", Schema.mk "" [("IUser", SchemaNode.leaf "user")]),
       ("u2.ts", Schema.mk "" [("IUser", SchemaNode.leaf "user")])]).definitions).count "IUser" = 1 ∧
     (listKeys (mergeSchemas
      [("u1.ts", Schema.mk "" [("IUser", SchemaNode.leaf "user")]),
       ("u2.ts", Schema.mk "" [("IUser", SchemaNode.leaf "user")])]).definitions).Nodup) :=
  ⟨rfl, merge_duplicate_identical _ "u1.ts" "u2.ts" "IUser"
    (Schema.mk "" [("IUser", SchemaNode.leaf "user")])
    (Schema.mk "" [("IUser", SchemaNode.leaf "user")])
    (SchemaNode.leaf "user") rfl (by decide) (by decide) rfl rfl⟩

/-- C4 (amended): during compatibility validation over path-sorted fragments,
the first symbol whose node is not deep-structurally equal to the recorded one
aborts validation immediately — whatever conflicts follow in the same file or
in later files never influence the outcome — and the raised
`DuplicateSymbolError` carries the symbol name, the path of the fragment
holding the conflicting (later) definition, and both structural definitions.
The path of the fragment that contributed the earlier definition is not
recorded anywhere in the error. -/
theorem validate_fail_fast_first_conflict
    (pre post : List (String × Schema)) (fp : String) (S : Schema)
    (acc acc2 : List (String × SchemaNode)) (kpre krest : List String)
    (s : String) (e : SchemaNode)
    (hsorted : List.Sorted (fun a b => strLe a.1 b.1) (pre ++ (fp, S) :: post))
    (hpre : validateEntries [] pre = Except.ok acc)
    (hkeys : sortStrings (listKeys S.definitions) = kpre ++ s :: krest)
    (hkpre : processKeys fp S.definitions acc kpre = Except.ok acc2)
    (hfound : listFind acc2 s = some e)
    (hne : e ≠ defAt S.definitions s) :
    validateSchemaCompatibility (pre ++ (fp, S) :: post) =
      Except.error ⟨dupMessage s, s, fp, e, defAt S.definitions s⟩ := by
  unfold validateSchemaCompatibility
  rw [show sortEntries (pre ++ (fp, S) :: post) = pre ++ (fp, S) :: post from
    List.Sorted.insertionSort_eq hsorted]
  rw [validateEntries_append, hpre]
  have hv : validateFile fp S acc =
      Except.error ⟨dupMessage s, s, fp, e, defAt S.definitions s⟩ := by
    unfold validateFile
    rw [hkeys, processKeys_append, hkpre]
    simp only [Except.bind, processKeys, List.foldlM_cons, hfound, if_neg hne]
    simp [Bind.bind, Except.bind]
  simp only [Except.bind, validateEntries, List.foldlM_cons, hv]
  simp [Bind.bind, Except.bind, Except.map]

/-- Witness for C4 (amended): the prefix file binds `S`, the middle file
conflicts on `S` after its key `A` went through, and a later file with yet
another conflict is never reached. -/
theorem validate_fail_fast_first_conflict_witness :
    List.Sorted (fun a b : String × Schema => strLe a.1 b.1)
      [("a.ts", Schema.mk "" [("S", SchemaNode.leaf "first")]),
       ("c.ts", Schema.mk "" [("A", SchemaNode.leaf "x"), ("S", SchemaNode.leaf "second")]),
       ("d.ts", Schema.mk "" [("S", SchemaNode.leaf "third")])] ∧
    validateSchemaCompatibility
      [("a.ts", Schema.mk "" [("S", SchemaNode.leaf "first")]),
       ("c.ts", Schema.mk "" [("A", SchemaNode.leaf "x"), ("S", SchemaNode.leaf "second")]),
       ("d.ts", Schema.mk "" [("S", SchemaNode.leaf "third")])] =
      Except.error ⟨dupMessage "S", "S", "c.ts",
        SchemaNode.leaf "first", SchemaNode.leaf "second"⟩ :=
  ⟨by decide,
   validate_fail_fast_first_conflict
    [("a.ts", Schema.mk "" [("S", SchemaNode.leaf "first")])]
    [("d.ts", Schema.mk "" [("S", SchemaNode.leaf "third")])]
    "c.ts"
    (Schema.mk "" [("A", SchemaNode.leaf "x"), ("S", SchemaNode.leaf "second")])
    [("S", SchemaNode.leaf "first")]
    [("S", SchemaNode.leaf "first"), ("A", SchemaNode.leaf "x")]
    ["A"] [] "S" (SchemaNode.leaf "first")
    (by decide) rfl (by decide) rfl rfl (by decide)⟩

/-- C4 counterexample: the raised `DuplicateSymbolError` cannot carry both
source paths — replacing the path of the fragment holding the earlier
definition changes nothing in the raised error, whose only path field names
the later (conflicting) fragment. -/
theorem duplicateSymbolError_single_path_counterexample :
    validateSchemaCompatibility
      [("a.ts", Schema.mk "" [("S", SchemaNode.leaf "first")]),
       ("c.ts", Schema.mk "" [("S", SchemaNode.leaf "second")])] =
    validateSchemaCompatibility
      [("b.ts", Schema.mk "" [("S", SchemaNode.leaf "first")]),
       ("c.ts", Schema.mk "" [("S", SchemaNode.leaf "second")])] ∧
    validateSchemaCompatibility
      [("a.ts", Schema.mk "" [("S", SchemaNode.leaf "first")]),
       ("c.ts", Schema.mk "" [("S", SchemaNode.leaf "second")])] =
      Except.error ⟨dupMessage "S", "S", "c.ts",
        SchemaNode.leaf "first", SchemaNode.leaf "second"⟩ :=
  ⟨rfl, rfl⟩

/-- C3 counterexample: when every artifact fails extraction the run does not
fail — the consolidated map is empty and `Generate` returns early
("No types found to generate schemas for") without raising, contradicting
the claim that the run as a whole fails in that case (the unit suite pins
this: "Should not throw but return empty map"). -/
theorem all_failed_run_does_not_fail_counterexample :
    generate (fun _ => Except.error "malformed") true
      [FileInfo.mk "a.ts" none none, FileInfo.mk "b.ts" none none,
       FileInfo.mk "c.ts" none none] = RunOutcome.noTypes ∧
    (generate (fun _ => Except.error "malformed") true
      [FileInfo.mk "a.ts" none none, FileInfo.mk "b.ts" none none,
       FileInfo.mk "c.ts" none none]).isFailed = false ∧
    processFiles (fun _ => Except.error "malformed") true
      [FileInfo.mk "a.ts" none none, FileInfo.mk "b.ts" none none,
       FileInfo.mk "c.ts" none none] = [] :=
  ⟨rfl, rfl, rfl⟩

/-- C3 (amended): a single extraction failure is captured, not thrown: the
consolidated map holds exactly the successful artifacts in sorted-path order
and the failures are collected for the report.  With at least one success and
compatible fragments the run completes with the merged schema of the
successful subset; when every artifact fails, the run does not raise either —
it ends early with an empty map and no schema output. -/
theorem extraction_failure_behavior
    (extract : String → Except String Schema) (parallel : Bool)
    (files : List FileInfo) (hnd : (files.map FileInfo.path).Nodup) :
    processFiles extract parallel files = successEntries extract files ∧
    processFilesErrors extract parallel files = failureMessages extract files ∧
    ((∀ f ∈ files, exceptOk (extract f.path) = false) →
      generate extract parallel files = RunOutcome.noTypes) ∧
    (∀ f, f ∈ files → exceptOk (extract f.path) = true →
      validateSchemaCompatibility (successEntries extract files) = Except.ok () →
      generate extract parallel files =
        RunOutcome.done (mergeSchemas (successEntries extract files))) := by
  obtain ⟨hmap, herr⟩ := processFiles_characterization extract parallel files hnd
  refine ⟨hmap, herr, ?_, ?_⟩
  · intro hall
    have hempty : successEntries extract files = [] := by
      unfold successEntries
      rw [List.filterMap_eq_nil_iff]
      intro f hf
      have hff : f ∈ files := (List.perm_insertionSort _ files).mem_iff.mp hf
      have hb := hall f hff
      cases hx : extract f.path with
      | ok s => rw [hx] at hb; simp [exceptOk] at hb
      | error e => simp [hx]
    show (if (processFiles extract parallel files).length = 0 then RunOutcome.noTypes
      else match validateSchemaCompatibility (processFiles extract parallel files) with
        | Except.error e => RunOutcome.failed e
        | Except.ok _ =>
          RunOutcome.done (mergeSchemas (processFiles extract parallel files))) =
      RunOutcome.noTypes
    rw [hmap, hempty]
    simp
  · intro f hf hok hval
    obtain ⟨s, hx⟩ : ∃ s, extract f.path = Except.ok s := by
      cases hx : extract f.path with
      | ok s => exact ⟨s, rfl⟩
      | error e => rw [hx] at hok; simp [exceptOk] at hok
    have hmem : (f.path, s) ∈ successEntries extract files := by
      unfold successEntries
      apply List.mem_filterMap.mpr
      exact ⟨f, (List.perm_insertionSort _ files).mem_iff.mpr hf, by rw [hx]⟩
    have hne : (successEntries extract files).length ≠ 0 := by
      intro hlen
      rw [List.length_eq_zero] at hlen
      rw [hlen] at hmem
      cases hmem
    show (if (processFiles extract parallel files).length = 0 then RunOutcome.noTypes
      else match validateSchemaCompatibility (processFiles extract parallel files) with
        | Except.error e => RunOutcome.failed e
        | Except.ok _ =>
          RunOutcome.done (mergeSchemas (processFiles extract parallel files))) =
      RunOutcome.done (mergeSchemas (successEntries extract files))
    rw [hmap, if_neg hne, hval]

/-- Witness for C3 (amended): one good artifact, one malformed artifact. -/
theorem extraction_failure_behavior_witness :
    (([FileInfo.mk "good.ts" none none, FileInfo.mk "bad.ts" none none].map
      FileInfo.path).Nodup) ∧
    (processFiles
        (fun p => if p = "good.ts" then Except.ok (Schema.mk "" [("T", SchemaNode.leaf "t")])
                  else Except.error "syntax error") true
        [FileInfo.mk "good.ts" none none, FileInfo.mk "bad.ts" none none] =
      successEntries
        (fun p => if p = "good.ts" then Except.ok (Schema.mk "" [("T", SchemaNode.leaf "t")])
                  else Except.error "syntax error")
        [FileInfo.mk "good.ts" none none, FileInfo.mk "bad.ts" none none] ∧
     processFilesErrors
        (fun p => if p = "good.ts" then Except.ok (Schema.mk "" [("T", SchemaNode.leaf "t")])
                  else Except.error "syntax error") true
        [FileInfo.mk "good.ts" none none, FileInfo.mk "bad.ts" none none] =
      failureMessages
        (fun p => if p = "good.ts" then Except.ok (Schema.mk "" [("T", SchemaNode.leaf "t")])
                  else Except.error "syntax error")
        [FileInfo.mk "good.ts" none none, FileInfo.mk "bad.ts" none none] ∧
     ((∀ f ∈ [FileInfo.mk "good.ts" none none, FileInfo.mk "bad.ts" none none],
        exceptOk ((fun p => if p = "good.ts" then Except.ok (Schema.mk "" [("T", SchemaNode.leaf "t")])
                  else Except.error "syntax error") f.path) = false) →
      generate
        (fun p => if p = "good.ts" then Except.ok (Schema.mk "" [("T", SchemaNode.leaf "t")])
                  else Except.error "syntax error") true
        [FileInfo.mk "good.ts" none none, FileInfo.mk "bad.ts" none none] =
        RunOutcome.noTypes) ∧
     (∀ f, f ∈ [FileInfo.mk "good.ts" none none, FileInfo.mk "bad.ts" none none] →
      exceptOk ((fun p => if p = "good.ts" then Except.ok (Schema.mk "" [("T", SchemaNode.leaf "t")])
                  else Except.error "syntax error") f.path) = true →
      validateSchemaCompatibility (successEntries
        (fun p => if p = "good.ts" then Except.ok (Schema.mk "" [("T", SchemaNode.leaf "t")])
                  else Except.error "syntax error")
        [FileInfo.mk "good.ts" none none, FileInfo.mk "bad.ts" none none]) = Except.ok () →
      generate
        (fun p => if p = "good.ts" then Except.ok (Schema.mk "" [("T", SchemaNode.leaf "t")])
                  else Except.error "syntax error") true
        [FileInfo.mk "good.ts" none none, FileInfo.mk "bad.ts" none none] =
        RunOutcome.done (mergeSchemas (successEntries
          (fun p => if p = "good.ts" then Except.ok (Schema.mk "" [("T", SchemaNode.leaf "t")])
                    else Except.error "syntax error")
          [FileInfo.mk "good.ts" none none, FileInfo.mk "bad.ts" none none])))) :=
  ⟨by decide,
   extraction_failure_behavior
    (fun p => if p = "good.ts" then Except.ok (Schema.mk "" [("T", SchemaNode.leaf "t")])
              else Except.error "syntax error") true
    [FileInfo.mk "good.ts" none none, FileInfo.mk "bad.ts" none none]
    (by decide)⟩

/-- C6 counterexample: with caching enabled, discovery fails even though an
artifact matches the pattern and the root is readable — a failing cache
persist escapes `enrichWithCacheInfo` and is wrapped into the discovery
error, so "zero matches or unreadable root" is not the exact failure
condition. -/
theorem discovery_fails_beyond_no_match_counterexample :
    discoverFiles true
      { crawl := Except.ok ["a.ts"]
        matchesGlob := fun _ => true
        statHash := fun _ => Except.ok ("hash", 0)
        writeCache := Except.error "ENOSPC" } =
      Except.error ⟨"Failed to discover files: ENOSPC"⟩ ∧
    (["a.ts"].filter (fun _ => true)).length ≠ 0 :=
  ⟨rfl, by decide⟩

/-- C6 (amended): discovery fails with a `FileDiscoveryError` exactly when
the crawl fails (unreadable root), no artifact matches, or — with caching
enabled — a per-file stat/hash or the cache persist fails; whenever it
succeeds it returns the matching paths sorted in ascending ordinal order. -/
theorem discovery_error_characterization (cacheEnabled : Bool) (env : DiscoveryEnv) :
    (∀ err, env.crawl = Except.error err →
      exceptOk (discoverFiles cacheEnabled env) = false) ∧
    (∀ allPaths, env.crawl = Except.ok allPaths →
      ((allPaths.filter env.matchesGlob).length = 0 →
        exceptOk (discoverFiles cacheEnabled env) = false) ∧
      ((allPaths.filter env.matchesGlob).length ≠ 0 → cacheEnabled = false →
        discoverFiles cacheEnabled env =
          Except.ok ((sortStrings (allPaths.filter env.matchesGlob)).map
            (fun p => FileInfo.mk p none none))) ∧
      ((allPaths.filter env.matchesGlob).length ≠ 0 → cacheEnabled = true →
        (exceptOk (discoverFiles cacheEnabled env) = true ↔
          (∀ p ∈ sortStrings (allPaths.filter env.matchesGlob),
            exceptOk (env.statHash p) = true) ∧ exceptOk env.writeCache = true)) ∧
      (∀ fs, discoverFiles cacheEnabled env = Except.ok fs →
        fs.map FileInfo.path = sortStrings (allPaths.filter env.matchesGlob))) := by
  constructor
  · intro err hcrawl
    unfold discoverFiles
    rw [hcrawl]
    rfl
  · intro allPaths hcrawl
    refine ⟨?_, ?_, ?_, ?_⟩
    · intro hzero
      unfold discoverFiles
      rw [hcrawl]
      simp only [hzero]
      rfl
    · intro hnz hcache
      subst hcache
      unfold discoverFiles
      rw [hcrawl]
      simp only [if_neg hnz]
      rfl
    · intro hnz hcache
      subst hcache
      unfold discoverFiles
      rw [hcrawl]
      simp only [if_neg hnz]
      rw [← enrichWithCacheInfo_ok_iff]
      cases he : enrichWithCacheInfo env (sortStrings (allPaths.filter env.matchesGlob)) with
      | ok fs => simp [exceptOk]
      | error e => simp [exceptOk]
    · intro fs hok
      unfold discoverFiles at hok
      simp only [hcrawl] at hok
      by_cases hz : (allPaths.filter env.matchesGlob).length = 0
      · rw [if_pos hz] at hok
        cases hok
      · rw [if_neg hz] at hok
        cases cacheEnabled with
        | false =>
          rw [if_neg (by simp)] at hok
          cases hok
          rw [List.map_map]
          have hcomp : (FileInfo.path ∘ fun p => FileInfo.mk p none none) = id := rfl
          rw [hcomp, List.map_id]
        | true =>
          rw [if_pos rfl] at hok
          cases he : enrichWithCacheInfo env (sortStrings (allPaths.filter env.matchesGlob)) with
          | error e => rw [he] at hok; cases hok
          | ok fs2 =>
            rw [he] at hok
            cases hok
            exact enrichWithCacheInfo_ok_paths env _ _ he

/-- Witness for C6 (amended) at a concrete cache-disabled environment. -/
theorem discovery_error_characterization_witness :
    ({ crawl := Except.ok ["b.ts", "a.ts", "skip.md"]
       matchesGlob := fun p => p ≠ "skip.md"
       statHash := fun _ => Except.ok ("hash", 0)
       writeCache := Except.ok () } : DiscoveryEnv).crawl =
      Except.ok ["b.ts", "a.ts", "skip.md"] ∧
    discoverFiles false
      { crawl := Except.ok ["b.ts", "a.ts", "skip.md"]
        matchesGlob := fun p => p ≠ "skip.md"
        statHash := fun _ => Except.ok ("hash", 0)
        writeCache := Except.ok () } =
      Except.ok [FileInfo.mk "a.ts" none none, FileInfo.mk "b.ts" none none] :=
  ⟨rfl, by
    have h := (discovery_error_characterization false
      { crawl := Except.ok ["b.ts", "a.ts", "skip.md"]
        matchesGlob := fun p => p ≠ "skip.md"
        statHash := fun _ => Except.ok ("hash", 0)
        writeCache := Except.ok () }).2 ["b.ts", "a.ts", "skip.md"] rfl
    have h2 := h.2.1 (by decide) rfl
    rw [h2]
    rfl⟩

/-- C7 counterexample: a cache I/O failure does surface to the caller of
discovery — a failing stat/hash of a matched file escapes the cache subsystem
and `discoverFiles` returns a `FileDiscoveryError` instead of recovering
locally. -/
theorem cache_failure_surfaces_counterexample :
    discoverFiles true
      { crawl := Except.ok ["m.ts"]
        matchesGlob := fun _ => true
        statHash := fun _ => Except.error "EACCES"
        writeCache := Except.ok () } =
      Except.error ⟨"Failed to discover files: EACCES"⟩ ∧
    loadCache CacheFileState.missing = [] ∧
    loadCache CacheFileState.corrupt = [] :=
  ⟨rfl, rfl, rfl⟩

/-- C7 (amended): loading a missing or corrupt cache file degrades silently
to the empty mapping without raising, but failures while hashing files or
persisting the cache during cache-enabled discovery are not recovered
locally — they propagate to the caller of `discoverFiles`, wrapped as a
`FileDiscoveryError`. -/
theorem cache_load_silent_but_enrich_failures_propagate
    (env : DiscoveryEnv) (allPaths : List String)
    (hcrawl : env.crawl = Except.ok allPaths)
    (hnz : (allPaths.filter env.matchesGlob).length ≠ 0)
    (hbad : exceptOk (enrichWithCacheInfo env
      (sortStrings (allPaths.filter env.matchesGlob))) = false) :
    (loadCache CacheFileState.missing = [] ∧
     loadCache CacheFileState.corrupt = [] ∧
     ∀ entries, loadCache (CacheFileState.valid entries) = entries) ∧
    exceptOk (discoverFiles true env) = false := by
  refine ⟨⟨rfl, rfl, fun entries => rfl⟩, ?_⟩
  unfold discoverFiles
  rw [hcrawl]
  simp only [if_neg hnz, if_pos rfl]
  cases he : enrichWithCacheInfo env (sortStrings (allPaths.filter env.matchesGlob)) with
  | ok fs =>
    rw [he] at hbad
    simp [exceptOk] at hbad
  | error e => rfl

/-- Witness for C7 (amended): one matched artifact, failing cache persist. -/
theorem cache_load_silent_but_enrich_failures_propagate_witness :
    ({ crawl := Except.ok ["w.ts"]
       matchesGlob := fun _ => true
       statHash := fun _ => Except.ok ("deadbeef", 7)
       writeCache := Except.error "EROFS" } : DiscoveryEnv).crawl =
      Except.ok ["w.ts"] ∧
    ((loadCache CacheFileState.missing = [] ∧
      loadCache CacheFileState.corrupt = [] ∧
      ∀ entries, loadCache (CacheFileState.valid entries) = entries) ∧
     exceptOk (discoverFiles true
      { crawl := Except.ok ["w.ts"]
        matchesGlob := fun _ => true
        statHash := fun _ => Except.ok ("deadbeef", 7)
        writeCache := Except.error "EROFS" }) = false) :=
  ⟨rfl,
   cache_load_silent_but_enrich_failures_propagate
    { crawl := Except.ok ["w.ts"]
      matchesGlob := fun _ => true
      statHash := fun _ => Except.ok ("deadbeef", 7)
      writeCache := Except.error "EROFS" }
    ["w.ts"] rfl (by decide) rfl⟩

/-- C9: `hasFileChanged` is exactly the comparison with the last recorded
hash — a differing supplied hash reports a change, an equal one does not —
and after re-hashing, the hash persisted by `saveCache` for that path is the
new one, different from the prior value. -/
theorem hasFileChanged_cache_invalidation
    (cache : List (String × String)) (p oldHash newHash : String)
    (hrec : listFind cache p = some oldHash) (hne : newHash ≠ oldHash) :
    hasFileChanged cache p newHash = true ∧
    hasFileChanged cache p oldHash = false ∧
    listFind (saveCacheMap cache [FileInfo.mk p (some newHash) none]) p =
      some newHash ∧
    listFind (saveCacheMap cache [FileInfo.mk p (some newHash) none]) p ≠
      some oldHash := by
  have hsave : saveCacheMap cache [FileInfo.mk p (some newHash) none] =
      listSet cache p newHash := rfl
  refine ⟨?_, ?_, ?_, ?_⟩
  · simp only [hasFileChanged, hrec]
    simp [Ne.symm hne]
  · simp [hasFileChanged, hrec]
  · rw [hsave, listFind_listSet_self]
  · rw [hsave, listFind_listSet_self]
    simp [hne]

/-- Witness for C9 at a concrete cache and changed hash. -/
theorem hasFileChanged_cache_invalidation_witness :
    listFind [("f.ts", "old123")] "f.ts" = some "old123" ∧
    (hasFileChanged [("f.ts", "old123")] "f.ts" "new456" = true ∧
     hasFileChanged [("f.ts", "old123")] "f.ts" "old123" = false ∧
     listFind (saveCacheMap [("f.ts", "old123")]
       [FileInfo.mk "f.ts" (some "new456") none]) "f.ts" = some "new456" ∧
     listFind (saveCacheMap [("f.ts", "old123")]
       [FileInfo.mk "f.ts" (some "new456") none]) "f.ts" ≠ some "old123") :=
  ⟨rfl, hasFileChanged_cache_invalidation [("f.ts", "old123")] "f.ts"
    "old123" "new456" rfl (by decide)⟩
